import Mathlib

/-!
# Shallow embedding of the habit tracker (Source/models.py, Source/database.py)

Calendar dates are modelled as integers: the bijection sending a Python date
`d` to `d.toordinal() - 1` maps dates onto ℤ, sends `d + timedelta(days=k)` to
`d + k`, and sends `d.weekday()` (Monday = 0) to `d % 7` — Python's floor-mod
and Lean's `Int.emod` agree for the positive modulus 7.

The SQLAlchemy session is modelled as an explicit `DBState` (a list of habits
and a list of instances) threaded through every operation.
-/

/-- Python `date.weekday()` under the ordinal embedding (Monday = 0). -/
def pyWeekday (d : Int) : Int := d % 7

/-- The polymorphic discriminator of `models.Habit` (`type` column plus the
`weekday` column, which is populated only for weekly habits). -/
inductive HabitKind where
  | daily : HabitKind
  | weekly : Option Int → HabitKind
deriving DecidableEq, Repr

/-- Embeds `models.Habit`: the columns the scheduler and streak engine read.
`description` and `date_created` carry no scheduling semantics and are
omitted. -/
structure Habit where
  id : Nat
  name : String
  kind : HabitKind
deriving DecidableEq, Repr

/-- Embeds `models.DailyHabit.next_period_start`: always the next day. -/
def DailyHabit.next_period_start (after : Int) : Int :=
  after + 1

/-- Embeds `models.WeeklyHabit.first_period_start`.  The Python guard is
`weekday is not current`; both operands are ints in 0..6, which CPython
interns, so `is not` coincides with `!=` here. -/
def WeeklyHabit.first_period_start (wd : Option Int) (after : Int) : Int :=
  let current := pyWeekday after
  let weekday := wd.getD 0
  let days_ahead := if weekday ≠ current then (weekday - current + 7) % 7 else 0
  after + days_ahead

/-- Embeds `models.WeeklyHabit.next_period_start` (same guard remark as above;
the `else` branch yields 7 so the call always advances). -/
def WeeklyHabit.next_period_start (wd : Option Int) (after : Int) : Int :=
  let current := pyWeekday after
  let weekday := wd.getD 0
  let days_ahead := if weekday ≠ current then (weekday - current + 7) % 7 else 7
  after + days_ahead

/-- Dynamic dispatch of `next_period_start` over the habit subclass. -/
def Habit.next_period_start (h : Habit) (after : Int) : Int :=
  match h.kind with
  | .daily => DailyHabit.next_period_start after
  | .weekly wd => WeeklyHabit.next_period_start wd after

/-- Dynamic dispatch of `first_period_start`.  Only `WeeklyHabit` defines this
method; neither `Habit` nor `DailyHabit` does, so calling it on a daily habit
raises `AttributeError`, modelled as `none`. -/
def Habit.first_period_start (h : Habit) (after : Int) : Option Int :=
  match h.kind with
  | .daily => none
  | .weekly wd => some (WeeklyHabit.first_period_start wd after)

/-- One period in days: one day for daily habits, seven for weekly ones. -/
def habitStep (h : Habit) : Int :=
  match h.kind with
  | .daily => 1
  | .weekly _ => 7

/-- Data-model invariant from the spec (§3): a stored weekday is an integer
in 0..6. -/
def Habit.wfWeekday (h : Habit) : Bool :=
  match h.kind with
  | .daily => true
  | .weekly none => true
  | .weekly (some w) => decide (0 ≤ w ∧ w < 7)

/-- Embeds `models.HabitInstance`: the columns the engine reads and writes.
`completed_at` is a timestamp; its presence means Completed. -/
structure HabitInstance where
  habit_id : Nat
  period_start : Int
  due_date : Option Int
  completed_at : Option Int
deriving DecidableEq, Repr

/-- The `due_date` expression of `models.HabitInstance.__init__` (line 176).
The trailing Python `else None` arm is unreachable: a habit is daily or
weekly. -/
def computeDueDate (kind : HabitKind) (period_start : Int) : Option Int :=
  match kind with
  | .daily => some period_start
  | .weekly (some _) => some period_start
  | .weekly none => some (period_start + (6 - pyWeekday period_start))

/-- Embeds `models.HabitInstance.__init__`: a fresh instance is Pending and carries
the computed due date. -/
def HabitInstance.create (habit : Habit) (period_start : Int) : HabitInstance :=
  { habit_id := habit.id
    period_start := period_start
    due_date := computeDueDate habit.kind period_start
    completed_at := none }

/-- Embeds `models.HabitInstance.is_completed`. -/
def HabitInstance.is_completed (i : HabitInstance) : Bool :=
  i.completed_at.isSome

/-- The database contents visible to the engine. -/
structure DBState where
  habits : List Habit
  instances : List HabitInstance
deriving DecidableEq, Repr

/-- The habit's own instances, as filtered by every per-habit query. -/
def DBState.mine (s : DBState) (hid : Nat) : List HabitInstance :=
  s.instances.filter (fun i => i.habit_id == hid)

/-- Embeds `database.save_instance`: look up an existing row with the same
`(habit_id, period_start)` and only insert when none is found. -/
def save_instance (s : DBState) (inst : HabitInstance) : DBState :=
  if s.instances.any (fun i =>
      i.habit_id == inst.habit_id && i.period_start == inst.period_start) then
    s
  else
    { s with instances := s.instances ++ [inst] }

/-- The user-facing errors `database.complete_task` raises (as `ValueError`s):
missing habit or instance, and double completion. -/
inductive CompleteError where
  | notFound : CompleteError
  | alreadyCompleted : CompleteError
deriving DecidableEq, Repr

/-- Embeds `HabitInstance.mark_completed` on the row with the given key, identity on
every other row. -/
def markIfAt (hid : Nat) (d : Int) (now : Int) (i : HabitInstance) : HabitInstance :=
  if i.habit_id == hid && i.period_start == d then
    { i with completed_at := some now }
  else i

/-- The session mutation inside `complete_task`: mark the row selected by
`(habit_id, period_start)` completed. -/
def mark_completed_in (l : List HabitInstance) (hid : Nat) (d : Int) (now : Int) :
    List HabitInstance :=
  l.map (markIfAt hid d now)

/-- Embeds `database.complete_task`.  The function raises before any session
mutation in each error branch, so errors return the state unchanged.  On
success it marks the row completed, then looks up the next period and
creates the follow-up instance through `save_instance` when absent.  (In
`models.py` both `next_period_start` overrides return plain dates, so the
datetime-normalisation branch at lines 140-143 is the identity.) -/
def complete_task (s : DBState) (name : String) (d : Int) (now : Int) :
    Option CompleteError × DBState :=
  match s.habits.find? (fun h => h.name == name) with
  | none => (some .notFound, s)
  | some habit =>
    match s.instances.find? (fun i =>
        i.habit_id == habit.id && i.period_start == d) with
    | none => (some .notFound, s)
    | some inst =>
      if inst.is_completed then
        (some .alreadyCompleted, s)
      else
        let s1 : DBState :=
          { s with instances := mark_completed_in s.instances habit.id d now }
        let next := habit.next_period_start d
        match s1.instances.find? (fun i =>
            i.habit_id == habit.id && i.period_start == next) with
        | some _ => (none, s1)
        | none => (none, save_instance s1 (HabitInstance.create habit next))

/-- Embeds `database.prev_period_start`: one day back for daily, seven for weekly. -/
def prev_period_start (h : Habit) (d : Int) : Int :=
  match h.kind with
  | .daily => d - 1
  | .weekly _ => d - 7

/-- The walk of `database.current_streak_for_habit` (lines 265-271): count
while the instance is completed and sits exactly at the expected date,
stepping the expected date back one period at a time; stop at the first
failure. -/
def streakLoop (habit : Habit) : List HabitInstance → Int → Nat
  | [], _ => 0
  | i :: rest, expected =>
    if i.is_completed && i.period_start == expected then
      streakLoop habit rest (prev_period_start habit expected) + 1
    else 0

/-- Embeds `database.current_streak_for_habit` after the query: the argument list is
the habit's instances with `period_start <= today` in descending order.  A
Pending head exactly at `today` is skipped before the walk begins. -/
def current_streak_list (habit : Habit) (today : Int)
    (l : List HabitInstance) : Nat :=
  match l with
  | [] => 0
  | first :: rest =>
    let instances_to_check :=
      if first.period_start == today && !first.is_completed then rest
      else first :: rest
    match instances_to_check with
    | [] => 0
    | j :: rest2 => streakLoop habit (j :: rest2) j.period_start

/-- Insert into a list kept in descending `period_start` order. -/
def insertDesc (i : HabitInstance) : List HabitInstance → List HabitInstance
  | [] => [i]
  | j :: rest =>
    if j.period_start ≤ i.period_start then i :: j :: rest
    else j :: insertDesc i rest

/-- The `ORDER BY period_start DESC` of the streak query. -/
def sortDesc : List HabitInstance → List HabitInstance
  | [] => []
  | i :: rest => insertDesc i (sortDesc rest)

/-- Embeds `database.current_streak_for_habit` in full: select the habit's instances
up to `today`, order them descending, and run the walk. -/
def current_streak_for_habit (s : DBState) (habit : Habit) (today : Int) : Nat :=
  current_streak_list habit today
    (sortDesc (s.instances.filter (fun i =>
      i.habit_id == habit.id && decide (i.period_start ≤ today))))

/-- The `ORDER BY period_start DESC ... first()` lookup of
`database.backfill_instances`: an instance with maximal `period_start`. -/
def maxByPeriodStart : List HabitInstance → Option HabitInstance
  | [] => none
  | i :: rest =>
    match maxByPeriodStart rest with
    | none => some i
    | some j => some (if j.period_start < i.period_start then i else j)

/-- The `while last.period_start < today` loop of `backfill_instances`,
returning the generated period starts in order.  The Python loop can diverge
(a malformed weekday can make `next_period_start` stall), so the embedding
carries fuel and returns `none` when the loop would still be running. -/
def backfillLoop (habit : Habit) (today : Int) : Nat → Int → Option (List Int)
  | 0, last => if last < today then none else some []
  | fuel + 1, last =>
    if last < today then
      let nxt := habit.next_period_start last
      (backfillLoop habit today fuel nxt).map (fun gen => nxt :: gen)
    else some []

/-- The per-habit body of `database.backfill_instances` (lines 309-329):
find the latest instance; if none exists, create one at
`habit.first_period_start(today)` — which raises `AttributeError` for a
daily habit (`none`) — then spawn successors while behind `today`. -/
def backfill_instances_for (s : DBState) (habit : Habit) (today : Int)
    (fuel : Nat) : Option DBState :=
  match maxByPeriodStart (s.mine habit.id) with
  | none =>
    match habit.first_period_start today with
    | none => none
    | some fstart =>
      match backfillLoop habit today fuel fstart with
      | none => none
      | some gen =>
        some { s with instances :=
          s.instances ++ [HabitInstance.create habit fstart]
            ++ gen.map (HabitInstance.create habit) }
  | some last =>
    match backfillLoop habit today fuel last.period_start with
    | none => none
    | some gen =>
      some { s with instances :=
        s.instances ++ gen.map (HabitInstance.create habit) }

/-- Python `max(values, default=0)` over the streak values. -/
def maxD0 : List Nat → Nat
  | [] => 0
  | x :: rest => max x (maxD0 rest)

/-- The `streak_for` closure of `database.longest_streak_all`.  Its
`isinstance(raw, date)` branch is dead code — `current_streak_for_habit`
always returns an int — so the value is the raw streak. -/
def streak_for (s : DBState) (today : Int) (h : Habit) : String × Nat :=
  (h.name, current_streak_for_habit s h today)

/-- Embeds `database.longest_streak_all`: the per-habit name→streak map (an
association list; habit names are unique by `save_habit`) and the maximum
streak with default 0. -/
def longest_streak_all (s : DBState) (today : Int) (habits : List Habit) :
    List (String × Nat) × Nat :=
  let streaks := habits.map (streak_for s today)
  (streaks, maxD0 (streaks.map Prod.snd))

/-- Modelled from the spec (§4.4 step 2), for comparison with the code:
remove the (first) Pending instance lying exactly at `today`, wherever it
sits in the list. -/
def dropFirstPendingAt (today : Int) : List HabitInstance → List HabitInstance
  | [] => []
  | i :: rest =>
    if i.period_start == today && !i.is_completed then rest
    else i :: dropFirstPendingAt today rest

/-- Modelled from the spec (§4.4): exclude the Pending instance at `today`
if one exists, then walk from the most recent remaining instance. -/
def specCurrentStreak (habit : Habit) (today : Int)
    (l : List HabitInstance) : Nat :=
  match dropFirstPendingAt today l with
  | [] => 0
  | j :: rest => streakLoop habit (j :: rest) j.period_start

/-- What the streak engine may observe about an instance: its owner, its
period start, and whether it is completed — not the completion timestamp,
not the due date. -/
def InstObs (i j : HabitInstance) : Prop :=
  i.habit_id = j.habit_id ∧ i.period_start = j.period_start ∧
    i.completed_at.isSome = j.completed_at.isSome

/-- The `(habit_id, period_start)` uniqueness discipline of the
`uix_habit_period` constraint. -/
def KeyNodup (l : List HabitInstance) : Prop :=
  l.Pairwise (fun a b => ¬(a.habit_id = b.habit_id ∧ a.period_start = b.period_start))

/-- Maximum of a list of dates, if any. -/
def maxDate? : List Int → Option Int
  | [] => none
  | d :: rest =>
    match maxDate? rest with
    | none => some d
    | some m => some (if m < d then d else m)

/-- The maximal stored `period_start` among a habit's instances. -/
def maxStartOf (s : DBState) (hid : Nat) : Option Int :=
  maxDate? ((s.mine hid).map (fun i => i.period_start))

/-! ## Concrete fixtures for witnesses, scenarios and counterexamples -/

/-- A daily habit with no stored instances (the C1 failing input). -/
def habitDailyEmpty : Habit := { id := 1, name := "meditate", kind := .daily }

def dbDailyEmpty : DBState := { habits := [habitDailyEmpty], instances := [] }

/-- The C2 scenario: Pending instance at today = 10, the two prior daily
periods completed and contiguous. -/
def listC2 : List HabitInstance :=
  [ { habit_id := 1, period_start := 10, due_date := some 10, completed_at := none }
  , { habit_id := 1, period_start := 9, due_date := some 9, completed_at := some 100 }
  , { habit_id := 1, period_start := 8, due_date := some 8, completed_at := some 90 } ]

/-! ## Basic recurrence lemmas -/

theorem next_period_start_ge (h : Habit) (d : Int) : d ≤ h.next_period_start d := by
  cases hk : h.kind with
  | daily =>
    simp [Habit.next_period_start, hk, DailyHabit.next_period_start]
  | weekly wd =>
    simp only [Habit.next_period_start, hk, WeeklyHabit.next_period_start, pyWeekday]
    split <;> omega

theorem next_period_start_gt (h : Habit) (hwf : h.wfWeekday = true) (d : Int) :
    d < h.next_period_start d := by
  cases hk : h.kind with
  | daily =>
    simp [Habit.next_period_start, hk, DailyHabit.next_period_start]
  | weekly wd =>
    have hwb : 0 ≤ wd.getD 0 ∧ wd.getD 0 < 7 := by
      cases wd with
      | none => simp
      | some w =>
        simp only [Habit.wfWeekday, hk] at hwf
        simpa using of_decide_eq_true hwf
    simp only [Habit.next_period_start, hk, WeeklyHabit.next_period_start, pyWeekday]
    split <;> omega

theorem next_period_start_le (h : Habit) (d : Int) :
    h.next_period_start d ≤ d + habitStep h := by
  cases hk : h.kind with
  | daily =>
    simp [Habit.next_period_start, hk, DailyHabit.next_period_start, habitStep]
  | weekly wd =>
    simp only [Habit.next_period_start, hk, WeeklyHabit.next_period_start, habitStep,
      pyWeekday]
    split <;> omega

/-! ## C1: firstPeriodStart and backfill step 2 -/

/-- C1: the claim says `firstPeriodStart` returns `after` unchanged for Daily
habits and that backfill step 2 succeeds for both kinds.  On the code, only
`WeeklyHabit` defines the method: for a Daily habit the dispatch yields
`none` (AttributeError), and backfill on a daily habit with no stored
instances fails.  The Weekly half of the claim holds: with weekday `w` in
0..6 the result is the first date on/after `after` whose weekday is `w`
(0 days ahead exactly when `after` already has weekday `w`, else 1-6 days
forward). -/
theorem first_period_start_claim :
    (∀ (i : Nat) (nm : String) (after : Int),
        (Habit.mk i nm .daily).first_period_start after = none) ∧
    backfill_instances_for dbDailyEmpty habitDailyEmpty 0 5 = none ∧
    (∀ (i : Nat) (nm : String) (w : Int) (after : Int), 0 ≤ w → w < 7 →
        (Habit.mk i nm (.weekly (some w))).first_period_start after =
          some (WeeklyHabit.first_period_start (some w) after) ∧
        after ≤ WeeklyHabit.first_period_start (some w) after ∧
        WeeklyHabit.first_period_start (some w) after ≤ after + 6 ∧
        WeeklyHabit.first_period_start (some w) after % 7 = w ∧
        (WeeklyHabit.first_period_start (some w) after = after ↔ after % 7 = w)) := by
  refine ⟨fun i nm after => rfl, by decide, ?_⟩
  intro i nm w after hw0 hw7
  refine ⟨rfl, ?_⟩
  simp only [WeeklyHabit.first_period_start, pyWeekday, Option.getD_some]
  split <;> omega

/-- Witness for C1 at weekday 2, after a Monday (date 7). -/
theorem first_period_start_claim_witness :
    (Habit.mk 2 "gym" (.weekly (some 2))).first_period_start 7 =
      some (WeeklyHabit.first_period_start (some 2) 7) ∧
    (7:Int) ≤ WeeklyHabit.first_period_start (some 2) 7 ∧
    WeeklyHabit.first_period_start (some 2) 7 ≤ 7 + 6 ∧
    WeeklyHabit.first_period_start (some 2) 7 % 7 = 2 ∧
    (WeeklyHabit.first_period_start (some 2) 7 = 7 ↔ (7:Int) % 7 = 2) :=
  first_period_start_claim.2.2 2 "gym" 2 7 (by decide) (by decide)

/-! ## C3: nextPeriodStart -/

/-- C3: for Daily habits `next_period_start after = after + 1`; for Weekly
habits with weekday `w` in 0..6 the result has weekday `w`, is strictly
greater than `after`, and equals `after + 7` exactly when `after` itself has
weekday `w` — the call never returns `after`. -/
theorem next_period_start_claim :
    (∀ (i : Nat) (nm : String) (after : Int),
        (Habit.mk i nm .daily).next_period_start after = after + 1) ∧
    (∀ (i : Nat) (nm : String) (w : Int) (after : Int), 0 ≤ w → w < 7 →
        (Habit.mk i nm (.weekly (some w))).next_period_start after % 7 = w ∧
        after < (Habit.mk i nm (.weekly (some w))).next_period_start after ∧
        ((Habit.mk i nm (.weekly (some w))).next_period_start after = after + 7 ↔
          after % 7 = w)) := by
  refine ⟨fun i nm after => rfl, ?_⟩
  intro i nm w after hw0 hw7
  simp only [Habit.next_period_start, WeeklyHabit.next_period_start, pyWeekday,
    Option.getD_some]
  split <;> omega

/-- Witness for C3 at weekday 2, after date 7 (a Monday) and date 9 (that
weekday itself). -/
theorem next_period_start_claim_witness :
    ((Habit.mk 2 "gym" (.weekly (some 2))).next_period_start 9 % 7 = 2 ∧
      (9:Int) < (Habit.mk 2 "gym" (.weekly (some 2))).next_period_start 9 ∧
      ((Habit.mk 2 "gym" (.weekly (some 2))).next_period_start 9 = 9 + 7 ↔
        (9:Int) % 7 = 2)) ∧
    (Habit.mk 1 "read" .daily).next_period_start 5 = 5 + 1 :=
  ⟨next_period_start_claim.2 2 "gym" 2 9 (by decide) (by decide),
    next_period_start_claim.1 1 "read" 5⟩

/-! ## C8: dueDate of a newly created instance -/

/-- C8: a fresh instance's due date is its period start for Daily habits and
for Weekly habits with an explicit weekday; for a Weekly habit without one it
is `periodStart + (6 - periodStart.weekday())`, the end of the ISO week
containing the period start (weekday 6, within the same week). -/
theorem due_date_claim :
    (∀ (habit : Habit) (p : Int), habit.kind = .daily →
        (HabitInstance.create habit p).due_date = some p) ∧
    (∀ (habit : Habit) (w : Int) (p : Int), habit.kind = .weekly (some w) →
        (HabitInstance.create habit p).due_date = some p) ∧
    (∀ (habit : Habit) (p : Int), habit.kind = .weekly none →
        (HabitInstance.create habit p).due_date = some (p + (6 - pyWeekday p)) ∧
        pyWeekday (p + (6 - pyWeekday p)) = 6 ∧
        p ≤ p + (6 - pyWeekday p) ∧ p + (6 - pyWeekday p) < p + 7) := by
  refine ⟨?_, ?_, ?_⟩
  · intro habit p hk
    simp [HabitInstance.create, computeDueDate, hk]
  · intro habit w p hk
    simp [HabitInstance.create, computeDueDate, hk]
  · intro habit p hk
    refine ⟨by simp [HabitInstance.create, computeDueDate, hk], ?_, ?_, ?_⟩ <;>
      simp only [pyWeekday] <;> omega

/-- Witness for C8: one habit of each of the three shapes, at period start 9
(a Wednesday). -/
theorem due_date_claim_witness :
    (HabitInstance.create (Habit.mk 1 "read" .daily) 9).due_date = some 9 ∧
    (HabitInstance.create (Habit.mk 2 "gym" (.weekly (some 2))) 9).due_date = some 9 ∧
    ((HabitInstance.create (Habit.mk 3 "plants" (.weekly none)) 9).due_date =
        some (9 + (6 - pyWeekday 9)) ∧
      pyWeekday (9 + (6 - pyWeekday 9)) = 6 ∧
      (9:Int) ≤ 9 + (6 - pyWeekday 9) ∧ (9:Int) + (6 - pyWeekday 9) < 9 + 7) :=
  ⟨due_date_claim.1 (Habit.mk 1 "read" .daily) 9 rfl,
    due_date_claim.2.1 (Habit.mk 2 "gym" (.weekly (some 2))) 2 9 rfl,
    due_date_claim.2.2 (Habit.mk 3 "plants" (.weekly none)) 9 rfl⟩

/-! ## C2: the current-streak walk -/

theorem dropFirstPendingAt_eq_self (today : Int) (l : List HabitInstance)
    (h : ∀ i ∈ l, (i.period_start == today && !i.is_completed) = false) :
    dropFirstPendingAt today l = l := by
  induction l with
  | nil => rfl
  | cons a rest ih =>
    have ha := h a (by simp)
    simp only [dropFirstPendingAt, ha, Bool.false_eq_true, if_false]
    rw [ih (fun i hi => h i (by simp [hi]))]

/-- C2: over a habit's instances listed in strictly descending `period_start`
order, all at most `today`, the code's streak computation coincides with the
spec's description (`specCurrentStreak`): a Pending instance exactly at
`today` is excluded and the walk starts at the next-most-recent instance
(0 if none remain), counting consecutive Completed instances at the expected
dates, stepping back one day for Daily and seven for Weekly, stopping at the
first mismatch; and in the concrete scenario — Pending instance at `today`,
the prior two daily periods Completed and contiguous — the streak is 2. -/
theorem current_streak_claim :
    (∀ (habit : Habit) (today : Int) (l : List HabitInstance),
        l.Pairwise (fun a b => b.period_start < a.period_start) →
        (∀ i ∈ l, i.period_start ≤ today) →
        current_streak_list habit today l = specCurrentStreak habit today l) ∧
    current_streak_list (Habit.mk 1 "read" .daily) 10 listC2 = 2 ∧
    (∀ (i : Nat) (nm : String) (d : Int),
        prev_period_start (Habit.mk i nm .daily) d = d - 1) ∧
    (∀ (i : Nat) (nm : String) (wd : Option Int) (d : Int),
        prev_period_start (Habit.mk i nm (.weekly wd)) d = d - 7) := by
  refine ⟨?_, by decide, fun i nm d => rfl, fun i nm wd d => rfl⟩
  intro habit today l hsort hle
  cases l with
  | nil => rfl
  | cons first rest =>
    have hrest : ∀ i ∈ rest, (i.period_start == today && !i.is_completed) = false := by
      intro i hi
      have h1 : i.period_start < first.period_start :=
        (List.pairwise_cons.mp hsort).1 i hi
      have h2 : first.period_start ≤ today := hle first (by simp)
      have : i.period_start ≠ today := by omega
      simp [this]
    by_cases hpred : (first.period_start == today && !first.is_completed) = true
    · simp only [current_streak_list, specCurrentStreak, dropFirstPendingAt, hpred,
        if_true]
    · rw [Bool.not_eq_true] at hpred
      simp only [current_streak_list, specCurrentStreak, dropFirstPendingAt, hpred,
        Bool.false_eq_true, if_false]
      rw [dropFirstPendingAt_eq_self today rest hrest]

/-- Witness for C2: the scenario list is strictly descending and bounded by
today = 10, and the general equivalence applies to it. -/
theorem current_streak_claim_witness :
    listC2.Pairwise (fun a b => b.period_start < a.period_start) ∧
    (∀ i ∈ listC2, i.period_start ≤ 10) ∧
    current_streak_list (Habit.mk 1 "read" .daily) 10 listC2 =
      specCurrentStreak (Habit.mk 1 "read" .daily) 10 listC2 :=
  ⟨by decide, by decide,
    current_streak_claim.1 (Habit.mk 1 "read" .daily) 10 listC2 (by decide) (by decide)⟩

/-! ## C10: the streak engine observes only period starts and pending status -/

theorem streakLoop_obs (habit : Habit) {l₁ l₂ : List HabitInstance}
    (hrel : List.Forall₂ InstObs l₁ l₂) :
    ∀ e, streakLoop habit l₁ e = streakLoop habit l₂ e := by
  induction hrel with
  | nil => intro e; rfl
  | @cons a b r₁ r₂ hab _ ih =>
    intro e
    obtain ⟨h1, h2, h3⟩ := hab
    have hc : (a.is_completed && a.period_start == e) =
        (b.is_completed && b.period_start == e) := by
      simp [HabitInstance.is_completed, h2, h3]
    simp only [streakLoop, hc]
    split
    · rw [ih]
    · rfl

theorem current_streak_list_obs (habit : Habit) (today : Int)
    {l₁ l₂ : List HabitInstance} (hrel : List.Forall₂ InstObs l₁ l₂) :
    current_streak_list habit today l₁ = current_streak_list habit today l₂ := by
  cases hrel with
  | nil => rfl
  | @cons a b r₁ r₂ hab hrest =>
    obtain ⟨h1, h2, h3⟩ := hab
    have hc : (a.period_start == today && !a.is_completed) =
        (b.period_start == today && !b.is_completed) := by
      simp [HabitInstance.is_completed, h2, h3]
    cases hb : (b.period_start == today && !b.is_completed) with
    | true =>
      simp only [current_streak_list, hc, hb, if_true]
      cases hrest with
      | nil => rfl
      | @cons a2 b2 r₁2 r₂2 hab2 hrest2 =>
        show streakLoop habit (a2 :: r₁2) a2.period_start =
          streakLoop habit (b2 :: r₂2) b2.period_start
        rw [hab2.2.1]
        exact streakLoop_obs habit (List.Forall₂.cons hab2 hrest2) _
    | false =>
      simp only [current_streak_list, hc, hb, Bool.false_eq_true, if_false]
      show streakLoop habit (a :: r₁) a.period_start =
        streakLoop habit (b :: r₂) b.period_start
      rw [h2]
      exact streakLoop_obs habit (List.Forall₂.cons ⟨h1, h2, h3⟩ hrest) _

theorem insertDesc_obs {i j : HabitInstance} (hij : InstObs i j)
    {l₁ l₂ : List HabitInstance} (hrel : List.Forall₂ InstObs l₁ l₂) :
    List.Forall₂ InstObs (insertDesc i l₁) (insertDesc j l₂) := by
  induction hrel with
  | nil => exact .cons hij .nil
  | @cons a b r₁ r₂ hab hrest ih =>
    simp only [insertDesc]
    rw [show a.period_start = b.period_start from hab.2.1,
      show i.period_start = j.period_start from hij.2.1]
    split
    · exact .cons hij (.cons hab hrest)
    · exact .cons hab ih

theorem sortDesc_obs {l₁ l₂ : List HabitInstance}
    (hrel : List.Forall₂ InstObs l₁ l₂) :
    List.Forall₂ InstObs (sortDesc l₁) (sortDesc l₂) := by
  induction hrel with
  | nil => exact .nil
  | cons hab _ ih => exact insertDesc_obs hab ih

theorem filter_obs (p : HabitInstance → Bool)
    (hp : ∀ i j, InstObs i j → p i = p j)
    {l₁ l₂ : List HabitInstance} (hrel : List.Forall₂ InstObs l₁ l₂) :
    List.Forall₂ InstObs (l₁.filter p) (l₂.filter p) := by
  induction hrel with
  | nil => exact .nil
  | @cons a b r₁ r₂ hab _ ih =>
    rw [List.filter_cons, List.filter_cons, hp a b hab]
    split
    · exact .cons hab ih
    · exact ih

/-- C10: `current_streak_for_habit` depends only on each instance's owner,
period start and completed/pending flag — two instance tables that agree on
those but differ arbitrarily in `due_date` values and in `completed_at`
timestamps (however late the completion) give the same streak. -/
theorem streak_ignores_timestamps_and_due_dates (s₁ s₂ : DBState) (habit : Habit)
    (today : Int) (hrel : List.Forall₂ InstObs s₁.instances s₂.instances) :
    current_streak_for_habit s₁ habit today = current_streak_for_habit s₂ habit today := by
  unfold current_streak_for_habit
  apply current_streak_list_obs
  apply sortDesc_obs
  refine filter_obs _ ?_ hrel
  intro i j hij
  obtain ⟨h1, h2, _⟩ := hij
  simp [h1, h2]

/-- Concrete pair of states for the C10 witness: same period starts and
completion flags, different due dates and (very late) completion
timestamps. -/
def dbObsA : DBState :=
  { habits := [Habit.mk 1 "read" .daily]
    instances :=
      [ { habit_id := 1, period_start := 9, due_date := some 9, completed_at := some 100 }
      , { habit_id := 1, period_start := 10, due_date := some 10, completed_at := none } ] }

def dbObsB : DBState :=
  { habits := [Habit.mk 1 "read" .daily]
    instances :=
      [ { habit_id := 1, period_start := 9, due_date := some 40, completed_at := some 99999 }
      , { habit_id := 1, period_start := 10, due_date := none, completed_at := none } ] }

/-- Witness for C10 on the concrete pair of states. -/
theorem streak_ignores_timestamps_and_due_dates_witness :
    List.Forall₂ InstObs dbObsA.instances dbObsB.instances ∧
    current_streak_for_habit dbObsA (Habit.mk 1 "read" .daily) 10 =
      current_streak_for_habit dbObsB (Habit.mk 1 "read" .daily) 10 :=
  ⟨.cons ⟨rfl, rfl, rfl⟩ (.cons ⟨rfl, rfl, rfl⟩ .nil),
    streak_ignores_timestamps_and_due_dates dbObsA dbObsB (Habit.mk 1 "read" .daily) 10
      (.cons ⟨rfl, rfl, rfl⟩ (.cons ⟨rfl, rfl, rfl⟩ .nil))⟩

/-! ## C4: error cases of complete -/

/-- Fixture for the C4 witness: one daily habit whose instance at date 5 is
already completed. -/
def dbC4 : DBState :=
  { habits := [Habit.mk 1 "read" .daily]
    instances :=
      [ { habit_id := 1, period_start := 5, due_date := some 5, completed_at := some 50 } ] }

/-- C4: `complete` fails with NotFound when no habit carries the name, fails
with NotFound when the habit exists but no instance sits at `onDate`, fails
with AlreadyCompleted when that instance is already completed — and in every
failure case the returned state is exactly the input state (the code raises
before any session mutation). -/
theorem complete_task_error_claim (s : DBState) (name : String) (d : Int) (now : Int) :
    ((∀ h ∈ s.habits, h.name ≠ name) →
      complete_task s name d now = (some .notFound, s)) ∧
    (∀ habit, s.habits.find? (fun h => h.name == name) = some habit →
      ((∀ i ∈ s.instances, ¬(i.habit_id = habit.id ∧ i.period_start = d)) →
        complete_task s name d now = (some .notFound, s)) ∧
      (∀ inst,
        s.instances.find? (fun i => i.habit_id == habit.id && i.period_start == d) =
          some inst →
        inst.completed_at.isSome = true →
        complete_task s name d now = (some .alreadyCompleted, s))) := by
  refine ⟨?_, ?_⟩
  · intro hno
    have hfind : s.habits.find? (fun h => h.name == name) = none := by
      rw [List.find?_eq_none]
      intro x hx
      simpa using hno x hx
    simp [complete_task, hfind]
  · intro habit hfind
    refine ⟨?_, ?_⟩
    · intro hnoinst
      have hifind : s.instances.find? (fun i =>
          i.habit_id == habit.id && i.period_start == d) = none := by
        rw [List.find?_eq_none]
        intro x hx
        simpa using hnoinst x hx
      simp [complete_task, hfind, hifind]
    · intro inst hifind hcomp
      simp [complete_task, hfind, hifind, HabitInstance.is_completed, hcomp]

/-- Witness for C4: the three failure shapes on the concrete fixture. -/
theorem complete_task_error_claim_witness :
    complete_task dbC4 "gym" 5 99 = (some CompleteError.notFound, dbC4) ∧
    complete_task dbC4 "read" 6 99 = (some CompleteError.notFound, dbC4) ∧
    complete_task dbC4 "read" 5 99 = (some CompleteError.alreadyCompleted, dbC4) :=
  ⟨(complete_task_error_claim dbC4 "gym" 5 99).1 (by decide),
    ((complete_task_error_claim dbC4 "read" 6 99).2 (Habit.mk 1 "read" .daily)
      (by decide)).1 (by decide),
    ((complete_task_error_claim dbC4 "read" 5 99).2 (Habit.mk 1 "read" .daily)
      (by decide)).2
      { habit_id := 1, period_start := 5, due_date := some 5, completed_at := some 50 }
      (by decide) (by decide)⟩

/-! ## C6: effects of a successful complete -/

theorem markIfAt_habit_id (hid : Nat) (d now : Int) (i : HabitInstance) :
    (markIfAt hid d now i).habit_id = i.habit_id := by
  unfold markIfAt; split <;> rfl

theorem markIfAt_period_start (hid : Nat) (d now : Int) (i : HabitInstance) :
    (markIfAt hid d now i).period_start = i.period_start := by
  unfold markIfAt; split <;> rfl

theorem markIfAt_hit (hid : Nat) (d now : Int) (i : HabitInstance)
    (h : (i.habit_id == hid && i.period_start == d) = true) :
    (markIfAt hid d now i).completed_at = some now := by
  simp [markIfAt, h]

theorem markIfAt_miss (hid : Nat) (d now : Int) (i : HabitInstance)
    (h : (i.habit_id == hid && i.period_start == d) = false) :
    markIfAt hid d now i = i := by
  simp [markIfAt, h]

theorem keyNodup_mark (l : List HabitInstance) (hid : Nat) (d now : Int)
    (h : KeyNodup l) : KeyNodup (mark_completed_in l hid d now) := by
  unfold KeyNodup mark_completed_in at *
  rw [List.pairwise_map]
  refine h.imp ?_
  intro a b hab
  simpa [markIfAt_habit_id, markIfAt_period_start] using hab

/-- C6: after a successful `complete(habitName, onDate)`, the instance at
`onDate` has `completedAt` set; an instance exists for the habit at
`nextPeriodStart(habit, onDate)` — when none existed there, exactly one new
Pending instance is appended at that period start, guarded by the
`(habitID, periodStart)` existence check — and key-uniqueness of the
instance table is preserved, so no duplicate is ever inserted. -/
theorem complete_task_success_claim (s : DBState) (name : String) (d now : Int)
    (habit : Habit) (inst : HabitInstance)
    (hh : s.habits.find? (fun h => h.name == name) = some habit)
    (hi : s.instances.find? (fun i => i.habit_id == habit.id && i.period_start == d) =
      some inst)
    (hp : inst.completed_at = none) :
    ∃ s₂ : DBState, complete_task s name d now = (none, s₂) ∧
      (∃ j ∈ s₂.instances, j.habit_id = habit.id ∧ j.period_start = d ∧
        j.completed_at = some now) ∧
      (∀ j ∈ s₂.instances, j.habit_id = habit.id → j.period_start = d →
        j.completed_at = some now) ∧
      (∃ j ∈ s₂.instances, j.habit_id = habit.id ∧
        j.period_start = habit.next_period_start d) ∧
      ((∃ j ∈ s.instances, j.habit_id = habit.id ∧
          j.period_start = habit.next_period_start d) →
        s₂.instances = mark_completed_in s.instances habit.id d now) ∧
      ((∀ j ∈ s.instances, ¬(j.habit_id = habit.id ∧
          j.period_start = habit.next_period_start d)) →
        s₂.instances = mark_completed_in s.instances habit.id d now ++
          [HabitInstance.create habit (habit.next_period_start d)] ∧
        (HabitInstance.create habit (habit.next_period_start d)).completed_at = none) ∧
      (KeyNodup s.instances → KeyNodup s₂.instances) := by
  have hinst_mem : inst ∈ s.instances := List.mem_of_find?_eq_some hi
  have hinst_pred := List.find?_some hi
  have hkey : inst.habit_id = habit.id ∧ inst.period_start = d := by
    simpa using hinst_pred
  have hic : inst.is_completed = false := by
    simp [HabitInstance.is_completed, hp]
  have hmk_mem : markIfAt habit.id d now inst ∈
      mark_completed_in s.instances habit.id d now :=
    List.mem_map_of_mem _ hinst_mem
  have hmk_hid : (markIfAt habit.id d now inst).habit_id = habit.id := by
    rw [markIfAt_habit_id]; exact hkey.1
  have hmk_ps : (markIfAt habit.id d now inst).period_start = d := by
    rw [markIfAt_period_start]; exact hkey.2
  have hmk_ca : (markIfAt habit.id d now inst).completed_at = some now :=
    markIfAt_hit _ _ _ _ hinst_pred
  have hall : ∀ j ∈ mark_completed_in s.instances habit.id d now,
      j.habit_id = habit.id → j.period_start = d → j.completed_at = some now := by
    intro j hj hjh hjp
    rw [mark_completed_in, List.mem_map] at hj
    obtain ⟨i0, hi0, rfl⟩ := hj
    rw [markIfAt_habit_id] at hjh
    rw [markIfAt_period_start] at hjp
    exact markIfAt_hit _ _ _ _ (by simp [hjh, hjp])
  have hkeys_mk : ∀ j ∈ mark_completed_in s.instances habit.id d now,
      ∃ i0 ∈ s.instances, j.habit_id = i0.habit_id ∧ j.period_start = i0.period_start := by
    intro j hj
    rw [mark_completed_in, List.mem_map] at hj
    obtain ⟨i0, hi0, rfl⟩ := hj
    exact ⟨i0, hi0, markIfAt_habit_id _ _ _ _, markIfAt_period_start _ _ _ _⟩
  have hkeys_to : ∀ i0 ∈ s.instances,
      ∃ j ∈ mark_completed_in s.instances habit.id d now,
        j.habit_id = i0.habit_id ∧ j.period_start = i0.period_start := by
    intro i0 hi0
    exact ⟨markIfAt habit.id d now i0, List.mem_map_of_mem _ hi0,
      markIfAt_habit_id _ _ _ _, markIfAt_period_start _ _ _ _⟩
  cases hfind : (mark_completed_in s.instances habit.id d now).find?
      (fun i => i.habit_id == habit.id &&
        i.period_start == habit.next_period_start d) with
  | some j0 =>
    have hj0_mem : j0 ∈ mark_completed_in s.instances habit.id d now :=
      List.mem_of_find?_eq_some hfind
    have hj0_key : j0.habit_id = habit.id ∧
        j0.period_start = habit.next_period_start d := by
      simpa using List.find?_some hfind
    refine ⟨{ s with instances := mark_completed_in s.instances habit.id d now },
      ?_, ?_, ?_, ?_, ?_, ?_, ?_⟩
    · simp only [complete_task, hh, hi, hic, Bool.false_eq_true, if_false, hfind]
    · exact ⟨markIfAt habit.id d now inst, hmk_mem, hmk_hid, hmk_ps, hmk_ca⟩
    · exact hall
    · exact ⟨j0, hj0_mem, hj0_key.1, hj0_key.2⟩
    · intro _; rfl
    · intro hnone
      exfalso
      obtain ⟨i0, hi0, hik1, hik2⟩ := hkeys_mk j0 hj0_mem
      exact hnone i0 hi0 ⟨by rw [← hik1]; exact hj0_key.1,
        by rw [← hik2]; exact hj0_key.2⟩
    · intro hnd; exact keyNodup_mark _ _ _ _ hnd
  | none =>
    have hnone_m : ∀ x ∈ mark_completed_in s.instances habit.id d now,
        ¬(x.habit_id == habit.id &&
          x.period_start == habit.next_period_start d) = true := by
      rw [← List.find?_eq_none]; exact hfind
    have hnone_s : ∀ x ∈ s.instances,
        ¬(x.habit_id = habit.id ∧ x.period_start = habit.next_period_start d) := by
      intro x hx hxk
      obtain ⟨j, hj, hjh, hjp⟩ := hkeys_to x hx
      exact hnone_m j hj (by simp [hjh, hjp, hxk.1, hxk.2])
    have hd_ne_next : d ≠ habit.next_period_start d := by
      intro hdn
      exact hnone_m _ hmk_mem (by simp [hmk_hid, hmk_ps, ← hdn])
    have hany : (mark_completed_in s.instances habit.id d now).any
        (fun i => i.habit_id ==
            (HabitInstance.create habit (habit.next_period_start d)).habit_id &&
          i.period_start ==
            (HabitInstance.create habit (habit.next_period_start d)).period_start) =
        false := by
      rw [List.any_eq_false]
      intro x hx
      simpa [HabitInstance.create] using hnone_m x hx
    refine ⟨{ s with instances := mark_completed_in s.instances habit.id d now ++
        [HabitInstance.create habit (habit.next_period_start d)] },
      ?_, ?_, ?_, ?_, ?_, ?_, ?_⟩
    · simp only [complete_task, hh, hi, hic, Bool.false_eq_true, if_false, hfind,
        save_instance, hany]
    · exact ⟨markIfAt habit.id d now inst, List.mem_append.mpr (Or.inl hmk_mem),
        hmk_hid, hmk_ps, hmk_ca⟩
    · intro j hj hjh hjp
      rcases List.mem_append.mp hj with hj | hj
      · exact hall j hj hjh hjp
      · rw [List.mem_singleton] at hj
        subst hj
        exfalso
        apply hd_ne_next
        have : (HabitInstance.create habit (habit.next_period_start d)).period_start =
            habit.next_period_start d := rfl
        rw [this] at hjp
        exact hjp.symm
    · exact ⟨HabitInstance.create habit (habit.next_period_start d),
        List.mem_append.mpr (Or.inr (List.mem_singleton.mpr rfl)), rfl, rfl⟩
    · intro hex
      exfalso
      obtain ⟨x, hx, hxk⟩ := hex
      exact hnone_s x hx hxk
    · intro _; exact ⟨rfl, rfl⟩
    · intro hnd
      have h1 := keyNodup_mark s.instances habit.id d now hnd
      unfold KeyNodup at h1 ⊢
      rw [List.pairwise_append]
      refine ⟨h1, List.pairwise_singleton _ _, ?_⟩
      intro a ha b hb
      rw [List.mem_singleton] at hb
      subst hb
      intro hk
      exact hnone_m a ha (by
        have h2 : a.habit_id = habit.id := hk.1
        have h3 : a.period_start = habit.next_period_start d := hk.2
        simp [h2, h3])
    
/-- Fixture for the C6 witness: one daily habit with a single Pending
instance at date 5. -/
def dbC6 : DBState :=
  { habits := [Habit.mk 1 "read" .daily]
    instances :=
      [ { habit_id := 1, period_start := 5, due_date := some 5, completed_at := none } ] }

/-- Witness for C6 on the concrete fixture (completing at date 5 with
timestamp 77). -/
theorem complete_task_success_claim_witness :
    ∃ s₂ : DBState, complete_task dbC6 "read" 5 77 = (none, s₂) ∧
      (∃ j ∈ s₂.instances, j.habit_id = (Habit.mk 1 "read" .daily).id ∧
        j.period_start = 5 ∧ j.completed_at = some 77) ∧
      (∀ j ∈ s₂.instances, j.habit_id = (Habit.mk 1 "read" .daily).id →
        j.period_start = 5 → j.completed_at = some 77) ∧
      (∃ j ∈ s₂.instances, j.habit_id = (Habit.mk 1 "read" .daily).id ∧
        j.period_start = (Habit.mk 1 "read" .daily).next_period_start 5) ∧
      ((∃ j ∈ dbC6.instances, j.habit_id = (Habit.mk 1 "read" .daily).id ∧
          j.period_start = (Habit.mk 1 "read" .daily).next_period_start 5) →
        s₂.instances = mark_completed_in dbC6.instances (Habit.mk 1 "read" .daily).id 5 77) ∧
      ((∀ j ∈ dbC6.instances, ¬(j.habit_id = (Habit.mk 1 "read" .daily).id ∧
          j.period_start = (Habit.mk 1 "read" .daily).next_period_start 5)) →
        s₂.instances = mark_completed_in dbC6.instances (Habit.mk 1 "read" .daily).id 5 77 ++
          [HabitInstance.create (Habit.mk 1 "read" .daily)
            ((Habit.mk 1 "read" .daily).next_period_start 5)] ∧
        (HabitInstance.create (Habit.mk 1 "read" .daily)
          ((Habit.mk 1 "read" .daily).next_period_start 5)).completed_at = none) ∧
      (KeyNodup dbC6.instances → KeyNodup s₂.instances) :=
  complete_task_success_claim dbC6 "read" 5 77 (Habit.mk 1 "read" .daily)
    { habit_id := 1, period_start := 5, due_date := some 5, completed_at := none }
    (by decide) (by decide) rfl

/-! ## Backfill: supporting lemmas -/

theorem maxByPeriodStart_eq_none {l : List HabitInstance}
    (h : maxByPeriodStart l = none) : l = [] := by
  cases l with
  | nil => rfl
  | cons a rest =>
    cases hrest : maxByPeriodStart rest <;>
      simp [maxByPeriodStart, hrest] at h

theorem maxByPeriodStart_spec :
    ∀ (l : List HabitInstance), l ≠ [] →
      ∃ j, maxByPeriodStart l = some j ∧ j ∈ l ∧
        ∀ i ∈ l, i.period_start ≤ j.period_start := by
  intro l
  induction l with
  | nil => intro h; exact absurd rfl h
  | cons a rest ih =>
    intro _
    cases hrest : maxByPeriodStart rest with
    | none =>
      have hnil : rest = [] := maxByPeriodStart_eq_none hrest
      subst hnil
      refine ⟨a, by simp [maxByPeriodStart], by simp, ?_⟩
      intro i hi
      rw [List.mem_singleton] at hi
      subst hi
      exact le_refl _
    | some j =>
      have hne : rest ≠ [] := by
        intro h
        subst h
        simp [maxByPeriodStart] at hrest
      obtain ⟨j', hj', hmem, hmax⟩ := ih hne
      rw [hrest] at hj'
      have hji : j = j' := Option.some.inj hj'
      subst hji
      by_cases hc : j.period_start < a.period_start
      · refine ⟨a, by simp [maxByPeriodStart, hrest, hc], by simp, ?_⟩
        intro i hi
        rcases List.mem_cons.mp hi with rfl | hi
        · exact le_refl _
        · exact le_trans (hmax i hi) (le_of_lt hc)
      · refine ⟨j, by simp [maxByPeriodStart, hrest, hc], by simp [hmem], ?_⟩
        intro i hi
        rcases List.mem_cons.mp hi with rfl | hi
        · omega
        · exact hmax i hi

theorem maxDate?_spec :
    ∀ (l : List Int), l ≠ [] →
      ∃ m, maxDate? l = some m ∧ m ∈ l ∧ ∀ x ∈ l, x ≤ m := by
  intro l
  induction l with
  | nil => intro h; exact absurd rfl h
  | cons a rest ih =>
    intro _
    cases hrest : maxDate? rest with
    | none =>
      have hnil : rest = [] := by
        cases rest with
        | nil => rfl
        | cons b r2 => cases h2 : maxDate? r2 <;> simp [maxDate?, h2] at hrest
      subst hnil
      refine ⟨a, by simp [maxDate?], by simp, ?_⟩
      intro x hx
      rw [List.mem_singleton] at hx
      subst hx
      exact le_refl _
    | some m =>
      have hne : rest ≠ [] := by
        intro h
        subst h
        simp [maxDate?] at hrest
      obtain ⟨m', hm', hmem, hmax⟩ := ih hne
      rw [hrest] at hm'
      have hmi : m = m' := Option.some.inj hm'
      subst hmi
      by_cases hc : m < a
      · refine ⟨a, by simp [maxDate?, hrest, hc], by simp, ?_⟩
        intro x hx
        rcases List.mem_cons.mp hx with rfl | hx
        · exact le_refl _
        · exact le_trans (hmax x hx) (le_of_lt hc)
      · refine ⟨m, by simp [maxDate?, hrest, hc], by simp [hmem], ?_⟩
        intro x hx
        rcases List.mem_cons.mp hx with rfl | hx
        · omega
        · exact hmax x hx

theorem backfillLoop_done (habit : Habit) (today : Int) (last : Int)
    (h : ¬ last < today) :
    ∀ fuel, backfillLoop habit today fuel last = some [] := by
  intro fuel
  cases fuel <;> simp [backfillLoop, h]

theorem backfillLoop_final_ge (habit : Habit) (today : Int) :
    ∀ (fuel : Nat) (last : Int) (gen : List Int),
      backfillLoop habit today fuel last = some gen → today ≤ gen.getLastD last := by
  intro fuel
  induction fuel with
  | zero =>
    intro last gen h
    simp only [backfillLoop] at h
    split at h
    · exact Option.noConfusion h
    · next hge =>
      obtain rfl : ([] : List Int) = gen := Option.some.inj h
      simp only [List.getLastD]
      omega
  | succ fuel ih =>
    intro last gen h
    simp only [backfillLoop] at h
    split at h
    · next hlt =>
      cases hin : backfillLoop habit today fuel (habit.next_period_start last) with
      | none => rw [hin] at h; exact Option.noConfusion h
      | some gen' =>
        rw [hin] at h
        simp only [Option.map_some'] at h
        obtain rfl : habit.next_period_start last :: gen' = gen := Option.some.inj h
        have hres := ih _ _ hin
        rw [List.getLastD_cons]
        exact hres
    · next hge =>
      obtain rfl : ([] : List Int) = gen := Option.some.inj h
      simp only [List.getLastD]
      omega

theorem backfillLoop_chain (habit : Habit) (hwf : habit.wfWeekday = true)
    (today : Int) :
    ∀ (fuel : Nat) (last : Int) (gen : List Int),
      backfillLoop habit today fuel last = some gen →
      List.Chain (· < ·) last gen ∧ ∀ x ∈ gen, x < today + habitStep habit := by
  intro fuel
  induction fuel with
  | zero =>
    intro last gen h
    simp only [backfillLoop] at h
    split at h
    · exact Option.noConfusion h
    · obtain rfl : ([] : List Int) = gen := Option.some.inj h
      exact ⟨List.Chain.nil, by simp⟩
  | succ fuel ih =>
    intro last gen h
    simp only [backfillLoop] at h
    split at h
    · next hlt =>
      cases hin : backfillLoop habit today fuel (habit.next_period_start last) with
      | none => rw [hin] at h; exact Option.noConfusion h
      | some gen' =>
        rw [hin] at h
        simp only [Option.map_some'] at h
        obtain rfl : habit.next_period_start last :: gen' = gen := Option.some.inj h
        obtain ⟨hch, hbd⟩ := ih _ _ hin
        refine ⟨List.Chain.cons (next_period_start_gt habit hwf last) hch, ?_⟩
        intro x hx
        rcases List.mem_cons.mp hx with rfl | hx
        · have := next_period_start_le habit last
          omega
        · exact hbd x hx
    · obtain rfl : ([] : List Int) = gen := Option.some.inj h
      exact ⟨List.Chain.nil, by simp⟩

theorem filter_creates (habit : Habit) (gen : List Int) :
    (gen.map (HabitInstance.create habit)).filter (fun i => i.habit_id == habit.id) =
      gen.map (HabitInstance.create habit) := by
  rw [List.filter_eq_self]
  intro a ha
  rw [List.mem_map] at ha
  obtain ⟨x, _, rfl⟩ := ha
  simp [HabitInstance.create]

theorem map_ps_creates (habit : Habit) (gen : List Int) :
    (gen.map (HabitInstance.create habit)).map (fun i => i.period_start) = gen := by
  rw [List.map_map]
  exact List.map_id' gen

theorem first_period_start_bounds (habit : Habit) (hwf : habit.wfWeekday = true)
    (today : Int) (fstart : Int)
    (h : habit.first_period_start today = some fstart) :
    today ≤ fstart ∧ fstart < today + habitStep habit := by
  cases hk : habit.kind with
  | daily => rw [Habit.first_period_start, hk] at h; exact Option.noConfusion h
  | weekly wd =>
    rw [Habit.first_period_start, hk] at h
    obtain rfl : WeeklyHabit.first_period_start wd today = fstart := Option.some.inj h
    have hwb : 0 ≤ wd.getD 0 ∧ wd.getD 0 < 7 := by
      cases wd with
      | none => simp
      | some w =>
        simp only [Habit.wfWeekday, hk] at hwf
        simpa using of_decide_eq_true hwf
    simp only [WeeklyHabit.first_period_start, pyWeekday, habitStep, hk]
    split <;> omega

theorem state_append_nil (s : DBState) :
    { s with instances := s.instances ++ ([] : List HabitInstance) } = s := by
  simp

theorem getLastD_mem_cons_int : ∀ (l : List Int) (a : Int), l.getLastD a ∈ a :: l := by
  intro l
  induction l with
  | nil => intro a; simp [List.getLastD]
  | cons b r ih =>
    intro a
    rw [List.getLastD_cons]
    rcases List.mem_cons.mp (ih b) with h | h
    · rw [h]
      exact List.mem_cons.mpr (Or.inr (List.mem_cons.mpr (Or.inl rfl)))
    · exact List.mem_cons.mpr (Or.inr (List.mem_cons.mpr (Or.inr h)))

/-! ## C5: state of a habit's instances after backfill -/

/-- C5 (amended): with a well-formed weekday, pairwise-distinct stored period
starts (the `uix_habit_period` constraint) and every pre-existing instance of
the habit strictly below `today + onePeriod`, a terminating `backfill(habit)`
leaves the habit's instance set free of duplicate period starts with its
maximal `periodStart` in `[today, today + onePeriod)`. -/
theorem backfill_post_claim (s : DBState) (habit : Habit) (today : Int)
    (fuel : Nat) (s₂ : DBState)
    (hwf : habit.wfWeekday = true)
    (hnd : (s.mine habit.id).Pairwise (fun a b => a.period_start ≠ b.period_start))
    (hbound : ∀ i ∈ s.mine habit.id, i.period_start < today + habitStep habit)
    (hrun : backfill_instances_for s habit today fuel = some s₂) :
    (s₂.mine habit.id).Pairwise (fun a b => a.period_start ≠ b.period_start) ∧
    ∃ m, maxStartOf s₂ habit.id = some m ∧ today ≤ m ∧
      m < today + habitStep habit := by
  cases hmb : maxByPeriodStart (s.mine habit.id) with
  | none =>
    have hmine_nil : s.mine habit.id = [] := maxByPeriodStart_eq_none hmb
    cases hfp : habit.first_period_start today with
    | none =>
      simp only [backfill_instances_for, hmb, hfp] at hrun
      exact Option.noConfusion hrun
    | some fstart =>
      cases hbl : backfillLoop habit today fuel fstart with
      | none =>
        simp only [backfill_instances_for, hmb, hfp, hbl] at hrun
        exact Option.noConfusion hrun
      | some gen =>
        simp only [backfill_instances_for, hmb, hfp, hbl] at hrun
        obtain rfl : _ = s₂ := Option.some.inj hrun
        obtain ⟨hch, hbd⟩ := backfillLoop_chain habit hwf today fuel fstart gen hbl
        have hpw : List.Pairwise (· < ·) (fstart :: gen) :=
          List.chain_iff_pairwise.mp hch
        have hmine : DBState.mine
            { s with instances := s.instances ++ [HabitInstance.create habit fstart]
              ++ gen.map (HabitInstance.create habit) } habit.id =
            (fstart :: gen).map (HabitInstance.create habit) := by
          show (s.instances ++ [HabitInstance.create habit fstart]
              ++ gen.map (HabitInstance.create habit)).filter
              (fun i => i.habit_id == habit.id) = _
          rw [List.filter_append, List.filter_append]
          rw [show s.instances.filter (fun i => i.habit_id == habit.id) = []
            from hmine_nil]
          rw [filter_creates]
          simp [List.filter_cons, HabitInstance.create]
        constructor
        · rw [hmine, List.pairwise_map]
          exact hpw.imp (fun h => Int.ne_of_lt h)
        · obtain ⟨m, hm, hmem, hmax⟩ := maxDate?_spec (fstart :: gen) (by simp)
          have hfin := backfillLoop_final_ge habit today fuel fstart gen hbl
          have hfin_mem : gen.getLastD fstart ∈ fstart :: gen :=
            getLastD_mem_cons_int gen fstart
          have hm_ge : today ≤ m := le_trans hfin (hmax _ hfin_mem)
          have hfb := first_period_start_bounds habit hwf today fstart hfp
          have hm_lt : m < today + habitStep habit := by
            rcases List.mem_cons.mp hmem with rfl | hmem2
            · exact hfb.2
            · exact hbd _ hmem2
          refine ⟨m, ?_, hm_ge, hm_lt⟩
          unfold maxStartOf
          rw [hmine, map_ps_creates]
          exact hm
  | some last =>
    cases hbl : backfillLoop habit today fuel last.period_start with
    | none =>
      simp only [backfill_instances_for, hmb, hbl] at hrun
      exact Option.noConfusion hrun
    | some gen =>
      simp only [backfill_instances_for, hmb, hbl] at hrun
      obtain rfl : _ = s₂ := Option.some.inj hrun
      have hmine_ne : s.mine habit.id ≠ [] := by
        intro h
        rw [h] at hmb
        exact Option.noConfusion hmb
      obtain ⟨jm, hjm, hjmem, hjmax⟩ := maxByPeriodStart_spec (s.mine habit.id) hmine_ne
      rw [hmb] at hjm
      have hji : last = jm := Option.some.inj hjm
      subst hji
      obtain ⟨hch, hbd⟩ := backfillLoop_chain habit hwf today fuel last.period_start gen hbl
      have hpw : List.Pairwise (· < ·) (last.period_start :: gen) :=
        List.chain_iff_pairwise.mp hch
      have hgen_gt : ∀ x ∈ gen, last.period_start < x := (List.pairwise_cons.mp hpw).1
      have hmine : DBState.mine
          { s with instances := s.instances ++ gen.map (HabitInstance.create habit) }
            habit.id =
          s.mine habit.id ++ gen.map (HabitInstance.create habit) := by
        show (s.instances ++ gen.map (HabitInstance.create habit)).filter
            (fun i => i.habit_id == habit.id) = _
        rw [List.filter_append, filter_creates]
        rfl
      constructor
      · rw [hmine, List.pairwise_append]
        refine ⟨hnd, ?_, ?_⟩
        · rw [List.pairwise_map]
          exact ((List.pairwise_cons.mp hpw).2).imp (fun h => Int.ne_of_lt h)
        · intro a ha b hb
          rw [List.mem_map] at hb
          obtain ⟨x, hx, rfl⟩ := hb
          have h1 : a.period_start ≤ last.period_start := hjmax a ha
          have h2 : last.period_start < x := hgen_gt x hx
          have h3 : (HabitInstance.create habit x).period_start = x := rfl
          rw [h3]
          omega
      · have hne2 : (s.mine habit.id).map (fun i => i.period_start) ++ gen ≠ [] := by
          intro happ
          rw [List.append_eq_nil] at happ
          exact hmine_ne (List.map_eq_nil_iff.mp happ.1)
        obtain ⟨m, hm, hmem, hmax⟩ :=
          maxDate?_spec ((s.mine habit.id).map (fun i => i.period_start) ++ gen) hne2
        have hfin := backfillLoop_final_ge habit today fuel last.period_start gen hbl
        have hfin_mem2 : gen.getLastD last.period_start ∈
            (s.mine habit.id).map (fun i => i.period_start) ++ gen := by
          rcases List.mem_cons.mp (getLastD_mem_cons_int gen last.period_start) with
            hfm | hfm
          · rw [hfm]
            exact List.mem_append.mpr (Or.inl (List.mem_map_of_mem _ hjmem))
          · exact List.mem_append.mpr (Or.inr hfm)
        have hm_ge : today ≤ m := le_trans hfin (hmax _ hfin_mem2)
        have hm_lt : m < today + habitStep habit := by
          rcases List.mem_append.mp hmem with hmm | hmm
          · rw [List.mem_map] at hmm
            obtain ⟨i0, hi0, rfl⟩ := hmm
            exact hbound i0 hi0
          · exact hbd _ hmm
        refine ⟨m, ?_, hm_ge, hm_lt⟩
        unfold maxStartOf
        rw [hmine, List.map_append, map_ps_creates]
        exact hm

/-- Fixture refuting C5 as literally stated: a daily habit whose instance at
`today + 1` was produced by completing today's instance (the completion path
legitimately creates the follow-up one period ahead).  Backfill at `today = 0`
then performs no writes and the maximal stored period start equals
`today + onePeriod`, not strictly below it. -/
def dbC5cex : DBState :=
  { habits := [Habit.mk 1 "read" .daily]
    instances :=
      [ { habit_id := 1, period_start := 0, due_date := some 0, completed_at := some 40 }
      , { habit_id := 1, period_start := 1, due_date := some 1, completed_at := none } ] }

/-- Counterexample to C5 as stated: after `backfill` at `today = 0` the
maximal `periodStart` of the habit is `1 = today + onePeriod`, which is not
`< today + onePeriod`. -/
theorem backfill_post_counterexample :
    backfill_instances_for dbC5cex (Habit.mk 1 "read" .daily) 0 5 = some dbC5cex ∧
    maxStartOf dbC5cex 1 = some 1 ∧
    ¬((1:Int) < 0 + habitStep (Habit.mk 1 "read" .daily)) := by decide

/-- Pre- and post-states for the C5/C7 witnesses: a daily habit with one
instance at 0, backfilled up to today = 2. -/
def dbBF : DBState :=
  { habits := [Habit.mk 1 "read" .daily]
    instances :=
      [ { habit_id := 1, period_start := 0, due_date := some 0, completed_at := none } ] }

def dbBF2 : DBState :=
  { habits := [Habit.mk 1 "read" .daily]
    instances :=
      [ { habit_id := 1, period_start := 0, due_date := some 0, completed_at := none }
      , { habit_id := 1, period_start := 1, due_date := some 1, completed_at := none }
      , { habit_id := 1, period_start := 2, due_date := some 2, completed_at := none } ] }

/-- Witness for C5 (amended) on the concrete backfill run. -/
theorem backfill_post_claim_witness :
    (dbBF2.mine 1).Pairwise (fun a b => a.period_start ≠ b.period_start) ∧
    ∃ m, maxStartOf dbBF2 1 = some m ∧ (2:Int) ≤ m ∧
      m < 2 + habitStep (Habit.mk 1 "read" .daily) :=
  backfill_post_claim dbBF (Habit.mk 1 "read" .daily) 2 5 dbBF2
    (by decide) (by decide) (by decide) (by decide)

/-! ## C7: backfill idempotence -/

theorem mine_append_creates (s : DBState) (habit : Habit) (gen : List Int) :
    DBState.mine
      { s with instances := s.instances ++ gen.map (HabitInstance.create habit) }
      habit.id =
    s.mine habit.id ++ gen.map (HabitInstance.create habit) := by
  show (s.instances ++ gen.map (HabitInstance.create habit)).filter
      (fun i => i.habit_id == habit.id) = _
  rw [List.filter_append, filter_creates]
  rfl

theorem mine_create_cons (s : DBState) (habit : Habit) (fstart : Int)
    (gen : List Int) (hnil : s.mine habit.id = []) :
    DBState.mine
      { s with instances := s.instances ++ [HabitInstance.create habit fstart]
        ++ gen.map (HabitInstance.create habit) } habit.id =
    (fstart :: gen).map (HabitInstance.create habit) := by
  show (s.instances ++ [HabitInstance.create habit fstart]
      ++ gen.map (HabitInstance.create habit)).filter
      (fun i => i.habit_id == habit.id) = _
  rw [List.filter_append, List.filter_append]
  rw [show s.instances.filter (fun i => i.habit_id == habit.id) = [] from hnil]
  rw [filter_creates]
  simp [List.filter_cons, HabitInstance.create]

theorem backfill_has_recent (s : DBState) (habit : Habit) (today : Int)
    (fuel : Nat) (s₂ : DBState)
    (hrun : backfill_instances_for s habit today fuel = some s₂) :
    ∃ j ∈ s₂.mine habit.id, today ≤ j.period_start := by
  cases hmb : maxByPeriodStart (s.mine habit.id) with
  | none =>
    have hmine_nil : s.mine habit.id = [] := maxByPeriodStart_eq_none hmb
    cases hfp : habit.first_period_start today with
    | none =>
      simp only [backfill_instances_for, hmb, hfp] at hrun
      exact Option.noConfusion hrun
    | some fstart =>
      cases hbl : backfillLoop habit today fuel fstart with
      | none =>
        simp only [backfill_instances_for, hmb, hfp, hbl] at hrun
        exact Option.noConfusion hrun
      | some gen =>
        simp only [backfill_instances_for, hmb, hfp, hbl] at hrun
        obtain rfl : _ = s₂ := Option.some.inj hrun
        have hfin := backfillLoop_final_ge habit today fuel fstart gen hbl
        refine ⟨HabitInstance.create habit (gen.getLastD fstart), ?_, hfin⟩
        rw [mine_create_cons s habit fstart gen hmine_nil]
        exact List.mem_map_of_mem _ (getLastD_mem_cons_int gen fstart)
  | some last =>
    cases hbl : backfillLoop habit today fuel last.period_start with
    | none =>
      simp only [backfill_instances_for, hmb, hbl] at hrun
      exact Option.noConfusion hrun
    | some gen =>
      simp only [backfill_instances_for, hmb, hbl] at hrun
      obtain rfl : _ = s₂ := Option.some.inj hrun
      have hmine_ne : s.mine habit.id ≠ [] := by
        intro h
        rw [h] at hmb
        exact Option.noConfusion hmb
      obtain ⟨jm, hjm, hjmem, hjmax⟩ := maxByPeriodStart_spec (s.mine habit.id) hmine_ne
      rw [hmb] at hjm
      have hji : last = jm := Option.some.inj hjm
      subst hji
      have hfin := backfillLoop_final_ge habit today fuel last.period_start gen hbl
      rcases List.mem_cons.mp (getLastD_mem_cons_int gen last.period_start) with
        hfm | hfm
      · refine ⟨last, ?_, ?_⟩
        · rw [mine_append_creates]
          exact List.mem_append.mpr (Or.inl hjmem)
        · rw [hfm] at hfin
          exact hfin
      · refine ⟨HabitInstance.create habit (gen.getLastD last.period_start), ?_, hfin⟩
        rw [mine_append_creates]
        exact List.mem_append.mpr (Or.inr (List.mem_map_of_mem _ hfm))

/-- C7: running `backfill(habit)` immediately after a successful run — same
`today`, no intervening writes — performs zero writes: the stored state is
returned unchanged, whatever fuel the second run is given. -/
theorem backfill_idempotent_claim (s : DBState) (habit : Habit) (today : Int)
    (fuel : Nat) (s₂ : DBState) (fuel₂ : Nat)
    (hrun : backfill_instances_for s habit today fuel = some s₂) :
    backfill_instances_for s₂ habit today fuel₂ = some s₂ := by
  obtain ⟨j, hj, hjge⟩ := backfill_has_recent s habit today fuel s₂ hrun
  have hne : s₂.mine habit.id ≠ [] := by
    intro h
    rw [h] at hj
    exact List.not_mem_nil j hj
  obtain ⟨jm, hjm, hjmem, hjmax⟩ := maxByPeriodStart_spec _ hne
  have hjmge : today ≤ jm.period_start := le_trans hjge (hjmax j hj)
  simp only [backfill_instances_for, hjm,
    backfillLoop_done habit today jm.period_start (by omega) fuel₂,
    List.map_nil, List.append_nil]

/-- Witness for C7 on the concrete backfill run (second run with different
fuel). -/
theorem backfill_idempotent_claim_witness :
    backfill_instances_for dbBF2 (Habit.mk 1 "read" .daily) 2 3 = some dbBF2 :=
  backfill_idempotent_claim dbBF (Habit.mk 1 "read" .daily) 2 5 dbBF2 3 (by decide)

/-! ## C9: the aggregate streak report -/

theorem le_maxD0 : ∀ (l : List Nat), ∀ x ∈ l, x ≤ maxD0 l := by
  intro l
  induction l with
  | nil => intro x hx; exact absurd hx (List.not_mem_nil x)
  | cons a rest ih =>
    intro x hx
    rcases List.mem_cons.mp hx with rfl | hx
    · exact le_max_left _ _
    · exact le_trans (ih x hx) (le_max_right _ _)

theorem maxD0_mem : ∀ (l : List Nat), l ≠ [] → maxD0 l ∈ l := by
  intro l
  induction l with
  | nil => intro h; exact absurd rfl h
  | cons a rest ih =>
    intro _
    cases hr : rest with
    | nil =>
      subst hr
      show max a (maxD0 []) ∈ [a]
      rw [show maxD0 [] = 0 from rfl, Nat.max_zero]
      exact List.mem_singleton.mpr rfl
    | cons b r2 =>
      rw [← hr]
      by_cases hc : maxD0 rest ≤ a
      · show max a (maxD0 rest) ∈ a :: rest
        rw [max_eq_left hc]
        exact List.mem_cons_self a rest
      · show max a (maxD0 rest) ∈ a :: rest
        rw [max_eq_right (le_of_not_le hc)]
        exact List.mem_cons_of_mem a (ih (by rw [hr]; exact List.cons_ne_nil b r2))

/-- C9: for habit lists with unique names (as `save_habit` enforces, making
the Python dict an association list), `longest_streak_all` reports, for each
habit, exactly `current_streak_for_habit` (its `isinstance(raw, date)` branch
is dead code), and an overall value that is the maximum of the per-habit
values, 0 when the habit list is empty. -/
theorem longest_streak_all_claim (s : DBState) (today : Int) (habits : List Habit)
    (hnames : (habits.map Habit.name).Nodup) :
    (longest_streak_all s today habits).1 =
      habits.map (fun h => (h.name, current_streak_for_habit s h today)) ∧
    (∀ h ∈ habits, (h.name, current_streak_for_habit s h today) ∈
      (longest_streak_all s today habits).1) ∧
    (habits = [] → (longest_streak_all s today habits).2 = 0) ∧
    (∀ h ∈ habits, current_streak_for_habit s h today ≤
      (longest_streak_all s today habits).2) ∧
    (habits ≠ [] → ∃ h ∈ habits,
      (longest_streak_all s today habits).2 = current_streak_for_habit s h today) := by
  refine ⟨rfl, ?_, ?_, ?_, ?_⟩
  · intro h hh
    exact List.mem_map_of_mem _ hh
  · intro hnil
    subst hnil
    rfl
  · intro h hh
    have hmem : current_streak_for_habit s h today ∈
        ((habits.map (streak_for s today)).map Prod.snd) := by
      rw [List.map_map]
      exact List.mem_map_of_mem _ hh
    exact le_maxD0 _ _ hmem
  · intro hne
    have hne2 : (habits.map (streak_for s today)).map Prod.snd ≠ [] := by
      simp only [ne_eq, List.map_eq_nil_iff]
      exact hne
    have hmem := maxD0_mem _ hne2
    rw [List.mem_map] at hmem
    obtain ⟨pair, hpair, hval⟩ := hmem
    rw [List.mem_map] at hpair
    obtain ⟨h, hh, rfl⟩ := hpair
    exact ⟨h, hh, hval.symm⟩

/-- Witness for C9: a singleton habit list; its streak bounds the overall
value. -/
theorem longest_streak_all_claim_witness :
    current_streak_for_habit dbObsA (Habit.mk 1 "read" .daily) 10 ≤
      (longest_streak_all dbObsA 10 [Habit.mk 1 "read" .daily]).2 :=
  (longest_streak_all_claim dbObsA 10 [Habit.mk 1 "read" .daily]
    (by decide)).2.2.2.1 (Habit.mk 1 "read" .daily) (by decide)
